import Mathlib

/-!
Verification of the retained-mode 2D scene-graph renderer core found in
`src/chunk-67ULRFHS.js` (a bundled build of the renderer).  Each section
below shallowly embeds one part of that source in Lean: JS numbers become
`ℚ` (alphas, timestamps) or `ℤ` (packed colors, counters, 32-bit results),
JS arrays become `List`s, nullable references become `Option`, and the
mutable objects the code updates in place become records threaded through
explicit state-passing functions.  Minified identifiers from the bundle
(`tt`, `Ut`, `rt`, `Be`, `st`, `q`, ...) are kept as the Lean names of the
corresponding embedded functions.
-/

namespace SceneRenderer

/-! ### Shared JS-number helpers -/

/-- The JS clamp ladder `t = t < 0 ? 0 : t > 1 ? 1 : t` used on alphas. -/
def clamp01 (t : ℚ) : ℚ := if t < 0 then 0 else if t > 1 then 1 else t

/-- JS `x | 0`: truncation of a number toward zero (our operands stay far
below `2^31`, so the Int32 wrap of `| 0` never engages and only the
truncation matters). -/
def jsTrunc (q : ℚ) : ℤ := if q < 0 then -((-q).floor) else q.floor

/-- JS `b << 24`: the left operand is converted to Int32, shifted, and the
result is read back as a signed 32-bit integer. -/
def jsShl24 (b : ℤ) : ℤ :=
  let v := (b * 2 ^ 24) % 2 ^ 32
  if v < 2 ^ 31 then v else v - 2 ^ 32

/-- The packed color-alpha recombination both `tt` and `Ut` perform:
`color + ((alpha * 255 | 0) << 24)`. -/
def packColorAlpha (color : ℤ) (alpha : ℚ) : ℤ :=
  color + jsShl24 (jsTrunc (alpha * 255))

/-! ### C2 — color/alpha propagation (`tt` and `Ut` in the bundle)

`tt(n, e, t)` updates a node's group color/alpha from its parent's; `Ut(n)`
updates a RenderGroup's world color/alpha from its parent group's.  The RGB
blend function `be` is defined in the bundle's base chunk and is kept as an
opaque parameter here; the claims under verification do not depend on it. -/

/-- The node fields read and written by the color/alpha branch of `tt`. -/
structure ColorAlphaNode where
  localColor : ℤ
  localAlpha : ℚ
  groupColor : ℤ
  groupAlpha : ℚ
  groupColorAlpha : ℤ
  deriving DecidableEq

/-- The parent fields `tt` reads (`e.groupColor`, `e.groupAlpha`).  A node
whose parent is a render-group boundary is combined with the module-level
fresh container `Et` instead, whose defaults are `groupColor = 0xFFFFFF`,
`groupAlpha = 1`. -/
structure ColorAlphaParent where
  groupColor : ℤ
  groupAlpha : ℚ
  deriving DecidableEq

/-- The fresh container `Et = new _` used as the parent of nodes sitting
directly under a render-group root. -/
def Et : ColorAlphaParent := { groupColor := 0xFFFFFF, groupAlpha := 1 }

/-- The `t & ye` (color/alpha) branch of `tt(n, e, t)` in the source:
`n.groupColor = be(n.localColor, e.groupColor); let r = n.localAlpha * e.groupAlpha;
r = r < 0 ? 0 : r > 1 ? 1 : r; n.groupAlpha = r;
n.groupColorAlpha = n.groupColor + ((r * 255 | 0) << 24)`. -/
def tt (be : ℤ → ℤ → ℤ) (n : ColorAlphaNode) (e : ColorAlphaParent) : ColorAlphaNode :=
  let gc := be n.localColor e.groupColor
  let r := clamp01 (n.localAlpha * e.groupAlpha)
  { n with groupColor := gc, groupAlpha := r,
           groupColorAlpha := gc + jsShl24 (jsTrunc (r * 255)) }

/-- The world color/alpha of a RenderGroup as written by `Ut`. -/
structure GroupColorAlpha where
  worldColor : ℤ
  worldAlpha : ℚ
  worldColorAlpha : ℤ
  deriving DecidableEq

/-- The root-node fields `Ut` reads: with a render-group parent it uses the
root's propagated `groupColor`/`groupAlpha`, without one its raw
`localColor`/`localAlpha`. -/
structure GroupRoot where
  groupColor : ℤ
  groupAlpha : ℚ
  localColor : ℤ
  localAlpha : ℚ
  deriving DecidableEq

/-- `Ut(n)`, color/alpha part: with a parent group
`n.worldColor = be(e.groupColor, r.worldColor); t = e.groupAlpha * r.worldAlpha`,
otherwise `n.worldColor = e.localColor; t = e.localAlpha`; then
`t = t < 0 ? 0 : t > 1 ? 1 : t; n.worldAlpha = t;
n.worldColorAlpha = n.worldColor + ((t * 255 | 0) << 24)`. -/
def Ut (be : ℤ → ℤ → ℤ) (root : GroupRoot) (parent : Option GroupColorAlpha) :
    GroupColorAlpha :=
  match parent with
  | some r =>
    let wc := be root.groupColor r.worldColor
    let t := clamp01 (root.groupAlpha * r.worldAlpha)
    { worldColor := wc, worldAlpha := t,
      worldColorAlpha := wc + jsShl24 (jsTrunc (t * 255)) }
  | none =>
    let t := clamp01 root.localAlpha
    { worldColor := root.localColor, worldAlpha := t,
      worldColorAlpha := root.localColor + jsShl24 (jsTrunc (t * 255)) }

/-- C2: the propagated group alpha is the clamped product of the node's
local alpha and the parent's group alpha; a RenderGroup's world alpha is the
clamped product of its root's alpha and the parent group's world alpha; the
packed color-alpha always re-derives as packed color plus
`(floor(alpha * 255) << 24)`; and a renderable of local alpha `1/2` nested
inside groups of alpha `4/5` and `1` ends up with world alpha `2/5`, on
which the clamp is the identity. -/
theorem C2_alpha_clamped_and_packed :
    (∀ (be : ℤ → ℤ → ℤ) (n : ColorAlphaNode) (e : ColorAlphaParent),
      (tt be n e).groupAlpha = clamp01 (n.localAlpha * e.groupAlpha)) ∧
    (∀ (be : ℤ → ℤ → ℤ) (root : GroupRoot) (r : GroupColorAlpha),
      (Ut be root (some r)).worldAlpha = clamp01 (root.groupAlpha * r.worldAlpha)) ∧
    (∀ (be : ℤ → ℤ → ℤ) (n : ColorAlphaNode) (e : ColorAlphaParent),
      (tt be n e).groupColorAlpha
        = packColorAlpha (tt be n e).groupColor (tt be n e).groupAlpha) ∧
    (∀ (be : ℤ → ℤ → ℤ) (root : GroupRoot) (p : Option GroupColorAlpha),
      (Ut be root p).worldColorAlpha
        = packColorAlpha (Ut be root p).worldColor (Ut be root p).worldAlpha) ∧
    (∀ be : ℤ → ℤ → ℤ,
      let outerWorld := Ut be { groupColor := 0, groupAlpha := 1,
                                localColor := 0, localAlpha := 1 } none
      let innerRootGA := (tt be { localColor := 0, localAlpha := 4/5, groupColor := 0,
                                  groupAlpha := 1, groupColorAlpha := 0 } Et).groupAlpha
      let innerWorld := Ut be { groupColor := 0, groupAlpha := innerRootGA,
                                localColor := 0, localAlpha := 0 } (some outerWorld)
      let rendGA := (tt be { localColor := 0, localAlpha := 1/2, groupColor := 0,
                             groupAlpha := 1, groupColorAlpha := 0 } Et).groupAlpha
      innerWorld.worldAlpha * rendGA = 2/5 ∧
      clamp01 (innerWorld.worldAlpha * rendGA) = innerWorld.worldAlpha * rendGA) := by
  refine ⟨fun be n e => rfl, fun be root r => rfl, fun be n e => rfl,
    fun be root p => by cases p <;> rfl, fun be => ?_⟩
  simp only [tt, Ut, Et, clamp01]
  norm_num

/-! ### C10 — the Runner broadcast list (`I` in the bundle)

Handlers are identified by `Nat` uids; `hasMethod h` models the JS
truthiness test `e[this._name]` (the object defines the runner's named
method with a truthy value). -/

/-- `I.remove`: `indexOf` followed by `splice(t, 1)`, i.e. erase the first
occurrence. -/
def runnerRemove (items : List ℕ) (e : ℕ) : List ℕ := items.erase e

/-- `I.add`: `e[this._name] && (this.remove(e), this.items.push(e))`. -/
def runnerAdd (hasMethod : ℕ → Bool) (items : List ℕ) (e : ℕ) : List ℕ :=
  if hasMethod e then runnerRemove items e ++ [e] else items

/-- `I.emit`: `for (f = 0; f < items.length; f++) items[f][name](...)` — one
invocation per item, in list order; the value is the sequence of handler
uids invoked. -/
def runnerEmit (items : List ℕ) : List ℕ := items

/-- A Runner's item list after a sequence of `add` calls, starting from the
constructor state `this.items = []`. -/
def runnerAddAll (hasMethod : ℕ → Bool) (adds : List ℕ) : List ℕ :=
  adds.foldl (runnerAdd hasMethod) []

theorem runnerAdd_nodup (hm : ℕ → Bool) (items : List ℕ) (e : ℕ)
    (h : items.Nodup) : (runnerAdd hm items e).Nodup := by
  unfold runnerAdd runnerRemove
  split
  · simp only [List.nodup_append, List.nodup_cons, List.not_mem_nil, not_false_iff,
      List.nodup_nil, and_true, true_and]
    refine ⟨h.erase e, ?_⟩
    intro a ha hb
    simp only [List.mem_singleton] at hb
    subst hb
    exact absurd ((h.mem_erase_iff).mp ha).1 (by simp)
  · exact h

theorem runnerAdd_hasMethod (hm : ℕ → Bool) (items : List ℕ) (e : ℕ)
    (h : ∀ x ∈ items, hm x = true) :
    ∀ x ∈ runnerAdd hm items e, hm x = true := by
  unfold runnerAdd runnerRemove
  split
  · intro x hx
    rcases List.mem_append.mp hx with hx | hx
    · exact h x (List.mem_of_mem_erase hx)
    · simp only [List.mem_singleton] at hx
      subst hx
      assumption
  · exact h

theorem runnerAddAll_invariant (hm : ℕ → Bool) (adds : List ℕ) :
    (runnerAddAll hm adds).Nodup ∧ ∀ x ∈ runnerAddAll hm adds, hm x = true := by
  unfold runnerAddAll
  suffices h : ∀ init : List ℕ, init.Nodup → (∀ x ∈ init, hm x = true) →
      (adds.foldl (runnerAdd hm) init).Nodup ∧
      ∀ x ∈ adds.foldl (runnerAdd hm) init, hm x = true by
    exact h [] (by simp) (by simp)
  induction adds with
  | nil => intro init h1 h2; exact ⟨h1, h2⟩
  | cons a rest ih =>
    intro init h1 h2
    exact ih (runnerAdd hm init a) (runnerAdd_nodup hm init a h1)
      (runnerAdd_hasMethod hm init a h2)

/-- C10: after any sequence of `add` calls on a Runner, a handler occurs at
most once in the item list (the list is duplicate-free) and every item
actually defines the runner's named method; a single `emit` walks exactly
that list in order, so each registered handler is invoked exactly once, in
registration order. -/
theorem C10_runner_add_emit (hm : ℕ → Bool) (adds : List ℕ) :
    (runnerAddAll hm adds).Nodup ∧
    (∀ x ∈ runnerAddAll hm adds, hm x = true) ∧
    runnerEmit (runnerAddAll hm adds) = runnerAddAll hm adds ∧
    (∀ x ∈ runnerAddAll hm adds, (runnerEmit (runnerAddAll hm adds)).count x = 1) := by
  obtain ⟨h1, h2⟩ := runnerAddAll_invariant hm adds
  refine ⟨h1, h2, rfl, ?_⟩
  intro x hx
  exact List.count_eq_one_of_mem h1 hx

/-- C10 witness: a concrete run — adding handlers 0, 1, 0 (handler 2 lacks
the method) leaves the list `[1, 0]`; handler 0 appears once and is emitted
exactly once. -/
theorem C10_runner_add_emit_witness :
    (runnerAddAll (fun n => n ≠ 2) [0, 1, 0, 2]).Nodup ∧
    ((fun n : ℕ => n ≠ 2) 0 = true) ∧
    (runnerEmit (runnerAddAll (fun n => n ≠ 2) [0, 1, 0, 2])).count 0 = 1 := by
  have h := C10_runner_add_emit (fun n => n ≠ 2) [0, 1, 0, 2]
  refine ⟨h.1, by decide, h.2.2.2 0 (by decide)⟩

/-! ### C5 — the color-mask pipe (`J` in the bundle)

The pipe keeps a JS array `_colorStack` with live prefix length
`_colorStackIndex` and the last-applied effective mask `_currentColor`.  The
live prefix is modelled as a list with its top at the head
(`colorStack.head = _colorStack[_colorStackIndex - 1]`). -/

structure ColorMaskState where
  colorStack : List ℕ
  currentColor : ℕ
  deriving DecidableEq

/-- `_colorStack[_colorStackIndex - 1]`, the current effective mask value. -/
def colorMaskTop (st : ColorMaskState) : ℕ := st.colorStack.headD 0

/-- `J.buildStart`: `_colorStack[0] = 15; _colorStackIndex = 1; _currentColor = 15`. -/
def colorMaskBuildStart : ColorMaskState := { colorStack := [15], currentColor := 15 }

/-- `J.push`: `i[idx] = i[idx - 1] & e.mask; let a = i[idx];
a !== _currentColor && (_currentColor = a, instructionSet.add({colorMask: a}));
idx++`.  Returns the new state and the emitted backend `colorMask`
instruction, when one is emitted. -/
def colorMaskPush (st : ColorMaskState) (mask : ℕ) : ColorMaskState × Option ℕ :=
  let a := colorMaskTop st &&& mask
  if a ≠ st.currentColor then
    ({ colorStack := a :: st.colorStack, currentColor := a }, some a)
  else
    ({ colorStack := a :: st.colorStack, currentColor := st.currentColor }, none)

/-- `J.pop`: `idx--; let a = i[idx - 1];
a !== _currentColor && (_currentColor = a, instructionSet.add({colorMask: a}))`. -/
def colorMaskPop (st : ColorMaskState) : ColorMaskState × Option ℕ :=
  let rest := st.colorStack.tail
  let a := rest.headD 0
  if a ≠ st.currentColor then
    ({ colorStack := rest, currentColor := a }, some a)
  else
    ({ colorStack := rest, currentColor := st.currentColor }, none)

/-- Folding a sequence of pushes over the pipe state. -/
def colorMaskPushAll (masks : List ℕ) (st : ColorMaskState) : ColorMaskState :=
  masks.foldl (fun s m => (colorMaskPush s m).1) st

theorem colorMaskPushAll_top (masks : List ℕ) :
    ∀ st, colorMaskTop (colorMaskPushAll masks st)
      = masks.foldl (· &&& ·) (colorMaskTop st) := by
  induction masks with
  | nil => intro st; rfl
  | cons m rest ih =>
    intro st
    show colorMaskTop (colorMaskPushAll rest (colorMaskPush st m).1)
      = rest.foldl (· &&& ·) (colorMaskTop st &&& m)
    rw [ih]
    congr 1
    simp only [colorMaskPush]
    split_ifs <;> rfl

theorem colorMaskPush_fst (st : ColorMaskState) (m : ℕ) :
    (colorMaskPush st m).1
      = { colorStack := (colorMaskTop st &&& m) :: st.colorStack,
          currentColor := colorMaskTop st &&& m } := by
  simp only [colorMaskPush]
  split_ifs with h
  · rfl
  · simp only [not_ne_iff] at h
    simp [h]

/-- C5: the top of the color-mask stack after a push is the previous top
AND-ed with the pushed mask (hence, from `buildStart`, the AND of every
pushed mask with the initial full mask 15); a pop restores the state —
including the effective mask — to its exact pre-push value; a backend
`colorMask` instruction is emitted on push or pop exactly when the effective
value changes; and `_currentColor` always equals the stack top after
`buildStart` and after every push/pop, so the restore hypothesis holds in
every reachable state. -/
theorem C5_color_mask_stack :
    (∀ st m, colorMaskTop (colorMaskPush st m).1 = colorMaskTop st &&& m) ∧
    (∀ masks : List ℕ, colorMaskTop (colorMaskPushAll masks colorMaskBuildStart)
        = masks.foldl (· &&& ·) 15) ∧
    (∀ st m, st.currentColor = colorMaskTop st →
        (colorMaskPop (colorMaskPush st m).1).1 = st) ∧
    (∀ st m, ((colorMaskPush st m).2).isSome = true
        ↔ colorMaskTop st &&& m ≠ st.currentColor) ∧
    (∀ st, ((colorMaskPop st).2).isSome = true
        ↔ st.colorStack.tail.headD 0 ≠ st.currentColor) ∧
    (colorMaskBuildStart.currentColor = colorMaskTop colorMaskBuildStart) ∧
    (∀ st m, (colorMaskPush st m).1.currentColor = colorMaskTop (colorMaskPush st m).1) ∧
    (∀ st, (colorMaskPop st).1.currentColor = colorMaskTop (colorMaskPop st).1) := by
  refine ⟨?_, ?_, ?_, ?_, ?_, rfl, ?_, ?_⟩
  · intro st m
    rw [colorMaskPush_fst]
    rfl
  · intro masks
    rw [colorMaskPushAll_top]
    rfl
  · rintro ⟨stack, cur⟩ m hinv
    simp only [colorMaskTop] at hinv
    rw [colorMaskPush_fst]
    simp only [colorMaskPop, colorMaskTop, List.tail_cons]
    split_ifs with h
    · show ColorMaskState.mk stack (stack.headD 0) = ⟨stack, cur⟩
      rw [hinv]
    · simp only [not_ne_iff] at h
      show ColorMaskState.mk stack (stack.headD 0 &&& m) = ⟨stack, cur⟩
      rw [← h, ← hinv]
  · intro st m
    simp only [colorMaskPush]
    split_ifs with h <;> simp [h]
  · intro st
    simp only [colorMaskPop]
    split_ifs with h <;> simpa using h
  · intro st m
    rw [colorMaskPush_fst]
    rfl
  · intro st
    simp only [colorMaskPop, colorMaskTop]
    split_ifs with h
    · rfl
    · simp only [not_ne_iff] at h
      exact h.symm

/-- C5 witness: from the `buildStart` state (where `_currentColor = 15` is
the stack top), pushing mask 5 and popping restores the exact initial
state. -/
theorem C5_color_mask_stack_witness :
    colorMaskBuildStart.currentColor = colorMaskTop colorMaskBuildStart ∧
    (colorMaskPop (colorMaskPush colorMaskBuildStart 5).1).1 = colorMaskBuildStart :=
  ⟨by decide, C5_color_mask_stack.2.2.1 colorMaskBuildStart 5 (by decide)⟩

/-! ### C3 — the batcher pipe (`Ue` in the bundle)

`Ue.addToBatch(e, t)` switches batches exactly when the incoming
renderable's `batcherName` differs from the active batch's `name`.  The
batch objects themselves (`Pe`, `nt.getBatcher`) live in the base chunk
`chunk-S3Y2VDS6.js`, which is not among this repository's sources, so their
run-closing behaviour is modelled from §4.3 of the spec.  A renderable is
represented by its draw-state key; per-batcher element runs are a
`String → ℕ` table; the emitted instruction stream records each closed
batch as (name, run length). -/

structure BatcherPipeState where
  activeName : String
  pending : String → ℕ
  emitted : List (String × ℕ)

/-- Modelled from the spec: `Batch.break(instructionSet)` (§4.3 — closing a
batch "emits a start-new-batch instruction" for the run accumulated since
the previous break; an empty run emits nothing).  Only the active batcher's
run is closed. -/
def batchBreak (st : BatcherPipeState) : BatcherPipeState :=
  if st.pending st.activeName = 0 then st
  else { st with
    emitted := st.emitted ++ [(st.activeName, st.pending st.activeName)],
    pending := fun n => if n = st.activeName then 0 else st.pending n }

/-- `Ue.buildStart`: the per-instruction-set batcher table is created with
only the default batcher, every run empty, and
`_activeBatch = _activeBatches.default`. -/
def batcherBuildStart : BatcherPipeState :=
  { activeName := "default", pending := fun _ => 0, emitted := [] }

/-- `Ue.addToBatch`: `if (_activeBatch.name !== e.batcherName) {
_activeBatch.break(t); r = _activeBatches[e.batcherName] (lazily created);
_activeBatch = r } _activeBatch.add(e)`. -/
def addToBatch (key : String) (st : BatcherPipeState) : BatcherPipeState :=
  let st1 := if st.activeName ≠ key then { batchBreak st with activeName := key } else st
  { st1 with pending := fun n => if n = key then st1.pending key + 1 else st1.pending n }

/-- `Ue.buildEnd`: `_activeBatch.break(e)` followed by buffer sizing, which
emits no instructions. -/
def batcherBuildEnd (st : BatcherPipeState) : BatcherPipeState := batchBreak st

/-- The batch instruction stream produced by one build: `buildStart`, one
`addToBatch` per renderable, then `buildEnd`. -/
def buildBatches (keys : List String) : List (String × ℕ) :=
  (batcherBuildEnd (keys.foldl (fun st k => addToBatch k st) batcherBuildStart)).emitted

/-- The number of adjacent draw-state-key transitions in a sequence. -/
def keyTransitions : List String → ℕ
  | a :: b :: rest => (if a = b then 0 else 1) + keyTransitions (b :: rest)
  | _ => 0

theorem addToBatch_same (st : BatcherPipeState) (k : String) (hk : st.activeName = k) :
    addToBatch k st
      = { st with pending := fun n => if n = k then st.pending k + 1 else st.pending n } := by
  simp [addToBatch, hk]

theorem addToBatch_switch (st : BatcherPipeState) (k : String)
    (hk : st.activeName ≠ k) (hinv : ∀ n, n ≠ st.activeName → st.pending n = 0)
    (hpos : 0 < st.pending st.activeName) :
    addToBatch k st
      = { activeName := k, pending := fun n => if n = k then 1 else 0,
          emitted := st.emitted ++ [(st.activeName, st.pending st.activeName)] } := by
  have hpk : st.pending k = 0 := hinv k (fun hc => hk hc.symm)
  simp only [addToBatch, batchBreak, if_neg (by omega : ¬st.pending st.activeName = 0),
    if_pos hk, BatcherPipeState.mk.injEq, true_and, and_true]
  funext n
  by_cases hn : n = k
  · subst hn
    rw [if_pos rfl, if_pos rfl, if_neg (fun hc : n = st.activeName => hk (hc.symm)), hpk]
  · rw [if_neg hn, if_neg hn]
    by_cases hna : n = st.activeName
    · rw [if_pos hna]
    · rw [if_neg hna]
      exact hinv n hna

theorem buildBatches_loop (rest : List String) :
    ∀ st : BatcherPipeState, (∀ n, n ≠ st.activeName → st.pending n = 0) →
      0 < st.pending st.activeName →
      (batcherBuildEnd (rest.foldl (fun st k => addToBatch k st) st)).emitted.length
        = st.emitted.length + 1 + keyTransitions (st.activeName :: rest) := by
  induction rest with
  | nil =>
    intro st hinv hpos
    simp only [List.foldl_nil, batcherBuildEnd, batchBreak, keyTransitions]
    rw [if_neg (by omega)]
    simp
  | cons k rest ih =>
    intro st hinv hpos
    by_cases hk : st.activeName = k
    · rw [List.foldl_cons, addToBatch_same st k hk]
      rw [ih _ (fun n hn => by
            show (if n = k then st.pending k + 1 else st.pending n) = 0
            rw [if_neg (fun hc : n = k => hn (hc.trans hk.symm))]
            exact hinv n hn)
          (by show 0 < (if st.activeName = k then st.pending k + 1 else st.pending st.activeName)
              rw [if_pos hk]
              omega)]
      show st.emitted.length + 1 + keyTransitions (st.activeName :: rest)
        = st.emitted.length + 1 + ((if st.activeName = k then 0 else 1) + keyTransitions (k :: rest))
      rw [if_pos hk, hk]
      omega
    · rw [List.foldl_cons, addToBatch_switch st k hk hinv hpos]
      rw [ih _ (fun n hn => by
            show (if n = k then 1 else 0) = 0
            exact if_neg hn)
          (by show 0 < (if k = k then 1 else 0)
              simp)]
      show (st.emitted ++ [(st.activeName, st.pending st.activeName)]).length + 1
            + keyTransitions (k :: rest)
        = st.emitted.length + 1 + ((if st.activeName = k then 0 else 1) + keyTransitions (k :: rest))
      rw [if_neg hk, List.length_append]
      simp only [List.length_singleton]
      omega

theorem addToBatch_start (k : String) :
    addToBatch k batcherBuildStart
      = { activeName := k, pending := fun n => if n = k then 1 else 0,
          emitted := [] } := by
  by_cases hk : k = "default"
  · subst hk
    rw [addToBatch_same batcherBuildStart "default" rfl]
    rfl
  · have h1 : batcherBuildStart.activeName ≠ k := fun hc => hk hc.symm
    simp only [addToBatch]
    rw [if_pos h1]
    rfl

/-- C3: adding a sequence of renderables through the batcher pipe emits a
batch boundary exactly at draw-state-key changes: the number of emitted
batches equals the number of adjacent key transitions plus one, never more;
in particular 3 renderables of key "a", then 1 of key "b", then 2 of key
"a" yield exactly the three batches ("a", 3), ("b", 1), ("a", 2). -/
theorem C3_batch_partitioning :
    (∀ keys : List String, keys ≠ [] →
      (buildBatches keys).length = keyTransitions keys + 1) ∧
    buildBatches ["a", "a", "a", "b", "a", "a"]
      = [("a", 3), ("b", 1), ("a", 2)] := by
  constructor
  · intro keys hne
    match keys with
    | k :: rest =>
      show (batcherBuildEnd
          ((k :: rest).foldl (fun st k => addToBatch k st) batcherBuildStart)).emitted.length
        = keyTransitions (k :: rest) + 1
      rw [List.foldl_cons, addToBatch_start k,
        buildBatches_loop rest _ (fun n hn => by simp only at hn ⊢; rw [if_neg hn]) (by simp)]
      simp only [List.length_nil]
      omega
  · rfl

/-- C3 witness: the transition-count law applied to the concrete sequence
of the end-to-end scenario. -/
theorem C3_batch_partitioning_witness :
    (["a", "a", "a", "b", "a", "a"] : List String) ≠ [] ∧
    (buildBatches ["a", "a", "a", "b", "a", "a"]).length
      = keyTransitions ["a", "a", "a", "b", "a", "a"] + 1 :=
  ⟨by decide, C3_batch_partitioning.1 _ (by decide)⟩

/-! ### C4 — the stencil-mask pipe (`Q.execute` in the bundle)

`Q.execute` keeps one reference count per render target in
`_maskStackHash[target.uid]` (defaulting to 0) and threads it through the
four stencil-mask instruction kinds.  The count for one target is the `ℤ`
state here; the backend calls made by one instruction are recorded in a
`StencilEffect`. -/

inductive StencilAction
  | pushMaskBegin
  | pushMaskEnd
  | popMaskBegin
  | popMaskEnd
  deriving DecidableEq

/-- The modes of `m.RENDERING_MASK_ADD`, `m.MASK_ACTIVE`,
`m.INVERSE_MASK_ACTIVE`, `m.RENDERING_MASK_REMOVE`, `m.DISABLED`. -/
inductive StencilMode
  | renderingMaskAdd
  | maskActive
  | inverseMaskActive
  | renderingMaskRemove
  | disabled
  deriving DecidableEq

/-- The backend effects of one executed stencil-mask instruction:
the `setStencilMode(mode, ref)` call, the `colorMask.setMask` value, and
whether `renderTarget.clear(null, STENCIL)` was issued. -/
structure StencilEffect where
  mode : StencilMode
  modeRef : ℤ
  colorMask : ℕ
  clearedStencil : Bool
  deriving DecidableEq

/-- `Q.execute(e)` for one instruction, on the current per-target count `i`:
`pushMaskBegin`: `setStencilMode(ADD, i); i++; colorMask(0)`;
`pushMaskEnd`: `setStencilMode(inverse ? INVERSE : ACTIVE, i); colorMask(15)`;
`popMaskBegin`: `colorMask(0); if (i !== 0) setStencilMode(REMOVE, i)
else { clear(STENCIL); setStencilMode(DISABLED, i) }; i--`;
`popMaskEnd`: `setStencilMode(inverse ? INVERSE : ACTIVE, i); colorMask(15)`. -/
def stencilExecute (inverse : Bool) (i : ℤ) (a : StencilAction) : ℤ × StencilEffect :=
  match a with
  | .pushMaskBegin =>
    (i + 1, { mode := .renderingMaskAdd, modeRef := i, colorMask := 0,
              clearedStencil := false })
  | .pushMaskEnd =>
    (i, { mode := if inverse then .inverseMaskActive else .maskActive,
          modeRef := i, colorMask := 15, clearedStencil := false })
  | .popMaskBegin =>
    if i ≠ 0 then
      (i - 1, { mode := .renderingMaskRemove, modeRef := i, colorMask := 0,
                clearedStencil := false })
    else
      (i - 1, { mode := .disabled, modeRef := i, colorMask := 0,
                clearedStencil := true })
  | .popMaskEnd =>
    (i, { mode := if inverse then .inverseMaskActive else .maskActive,
          modeRef := i, colorMask := 15, clearedStencil := false })

/-- Executing a sequence of stencil-mask instructions against one target:
the final count and the per-instruction effects. -/
def stencilRun (inverse : Bool) (i : ℤ) : List StencilAction → ℤ × List StencilEffect
  | [] => (i, [])
  | a :: rest =>
    let step := stencilExecute inverse i a
    let tail := stencilRun inverse step.1 rest
    (tail.1, step.2 :: tail.2)

/-- The intermediate counts reached after each executed instruction. -/
def stencilCounts (inverse : Bool) (i : ℤ) : List StencilAction → List ℤ
  | [] => []
  | a :: rest =>
    let i1 := (stencilExecute inverse i a).1
    i1 :: stencilCounts inverse i1 rest

/-- The stencil-instruction streams the instruction builder produces:
`Q.push` emits `pushMaskBegin` (mask shape) `pushMaskEnd`, the masked
content may contain nested balanced streams, and `Q.pop` emits
`popMaskBegin` (replayed shape) `popMaskEnd`. -/
inductive BalancedMask : List StencilAction → Prop
  | nil : BalancedMask []
  | wrap (inner rest : List StencilAction) :
      BalancedMask inner → BalancedMask rest →
      BalancedMask (.pushMaskBegin :: .pushMaskEnd :: inner
        ++ .popMaskBegin :: .popMaskEnd :: rest)

/-- The pure count transition of one executed instruction: `pushMaskBegin`
increments, `popMaskBegin` decrements (on both of its branches), the two
end instructions leave the count unchanged. -/
def stencilCountStep (i : ℤ) : StencilAction → ℤ
  | .pushMaskBegin => i + 1
  | .pushMaskEnd => i
  | .popMaskBegin => i - 1
  | .popMaskEnd => i

theorem stencilExecute_fst (inverse : Bool) (i : ℤ) (a : StencilAction) :
    (stencilExecute inverse i a).1 = stencilCountStep i a := by
  cases a
  · rfl
  · rfl
  · simp only [stencilExecute, stencilCountStep]
    split_ifs <;> rfl
  · rfl

theorem stencilRun_cons (inverse : Bool) (j : ℤ) (a : StencilAction)
    (l : List StencilAction) :
    stencilRun inverse j (a :: l)
      = ((stencilRun inverse (stencilCountStep j a) l).1,
         (stencilExecute inverse j a).2
           :: (stencilRun inverse (stencilCountStep j a) l).2) := by
  show ((stencilRun inverse (stencilExecute inverse j a).1 l).1,
    (stencilExecute inverse j a).2 :: (stencilRun inverse (stencilExecute inverse j a).1 l).2) = _
  rw [stencilExecute_fst]

theorem stencilCounts_cons (inverse : Bool) (j : ℤ) (a : StencilAction)
    (l : List StencilAction) :
    stencilCounts inverse j (a :: l)
      = stencilCountStep j a :: stencilCounts inverse (stencilCountStep j a) l := by
  show (stencilExecute inverse j a).1
    :: stencilCounts inverse (stencilExecute inverse j a).1 l = _
  rw [stencilExecute_fst]

theorem stencilRun_append (inverse : Bool) (l1 l2 : List StencilAction) :
    ∀ i, stencilRun inverse i (l1 ++ l2)
      = ((stencilRun inverse (stencilRun inverse i l1).1 l2).1,
         (stencilRun inverse i l1).2
           ++ (stencilRun inverse (stencilRun inverse i l1).1 l2).2) := by
  induction l1 with
  | nil => intro i; simp [stencilRun]
  | cons a rest ih =>
    intro i
    simp only [List.cons_append, stencilRun_cons, ih, List.cons_append]

theorem stencilCounts_append (inverse : Bool) (l1 l2 : List StencilAction) :
    ∀ i, stencilCounts inverse i (l1 ++ l2)
      = stencilCounts inverse i l1
         ++ stencilCounts inverse (stencilRun inverse i l1).1 l2 := by
  induction l1 with
  | nil => intro i; simp [stencilCounts, stencilRun]
  | cons a rest ih =>
    intro i
    simp only [List.cons_append, stencilCounts_cons, stencilRun_cons, ih, List.cons_append]

theorem stencilExecute_popBegin_cleared (inverse : Bool) (i : ℤ) (h : i ≠ 0) :
    (stencilExecute inverse i .popMaskBegin).2.clearedStencil = false := by
  simp only [stencilExecute]
  rw [if_pos h]

theorem stencilRun_balanced (inverse : Bool) :
    ∀ l, BalancedMask l → ∀ i : ℤ,
      (stencilRun inverse i l).1 = i ∧
      (∀ c ∈ stencilCounts inverse i l, i ≤ c) ∧
      (0 ≤ i → ∀ e ∈ (stencilRun inverse i l).2, e.clearedStencil = false) := by
  intro l hbal
  induction hbal with
  | nil =>
    intro i
    refine ⟨rfl, by simp [stencilCounts], by intro _ e he; simp [stencilRun] at he⟩
  | wrap inner rest hinner hrest ihinner ihrest =>
    intro i
    obtain ⟨hi1, hc1, he1⟩ := ihinner (i + 1)
    obtain ⟨hi2, hc2, he2⟩ := ihrest i
    refine ⟨?_, ?_, ?_⟩
    · simp only [List.cons_append, stencilRun_cons, stencilCountStep, stencilRun_append,
        hi1, add_sub_cancel_right, hi2]
    · simp only [List.cons_append, stencilCounts_cons, stencilCountStep, stencilCounts_append,
        stencilRun_cons, stencilRun_append, hi1, add_sub_cancel_right, List.mem_cons,
        List.mem_append]
      rintro c (rfl | rfl | hm | rfl | rfl | hm)
      · omega
      · omega
      · exact le_trans (by omega) (hc1 c hm)
      · omega
      · omega
      · exact hc2 c hm
    · intro hnonneg
      simp only [List.cons_append, stencilRun_cons, stencilCountStep, stencilRun_append,
        hi1, add_sub_cancel_right, List.mem_cons, List.mem_append]
      rintro e (rfl | rfl | hm | rfl | rfl | hm)
      · rfl
      · rfl
      · exact he1 (by omega) e hm
      · exact stencilExecute_popBegin_cleared inverse (i + 1) (by omega)
      · rfl
      · exact he2 hnonneg e hm

/-- The push-A push-B pop-B pop-A instruction stream of the nesting
scenario. -/
def nestedTwoMasks : List StencilAction :=
  [.pushMaskBegin, .pushMaskEnd, .pushMaskBegin, .pushMaskEnd,
   .popMaskBegin, .popMaskEnd, .popMaskBegin, .popMaskEnd]

theorem nestedTwoMasks_balanced : BalancedMask nestedTwoMasks :=
  BalancedMask.wrap [.pushMaskBegin, .pushMaskEnd, .popMaskBegin, .popMaskEnd] []
    (BalancedMask.wrap [] [] BalancedMask.nil BalancedMask.nil) BalancedMask.nil

/-- C4 counterexample: executing `popMaskBegin` with the reference count at
0 does clear the stencil plane and disable the stencil test, but it still
decrements the stored count, to −1 — contradicting the claim's "instead of
decrementing further". -/
theorem C4_zero_pop_decrements :
    (stencilExecute false 0 .popMaskBegin).2.clearedStencil = true ∧
    (stencilExecute false 0 .popMaskBegin).2.mode = .disabled ∧
    (stencilExecute false 0 .popMaskBegin).1 = -1 := by
  refine ⟨rfl, rfl, rfl⟩

/-- C4 as amended: for every balanced nested stencil push/pop stream on one
target, each `pushMaskBegin` increments the per-target count by exactly one,
the count returns exactly to its initial value, never drops below it (so
from 0 it is never negative), and the clear-and-disable branch never runs;
when a `popMaskBegin` does execute with the count at 0 (possible only
outside balanced streams), the implementation clears the stencil plane and
disables the stencil test but still decrements the stored count to −1. -/
theorem C4_stencil_refcount :
    ∀ (inverse : Bool) (l : List StencilAction) (i : ℤ), BalancedMask l → 0 ≤ i →
      ((∀ j : ℤ, (stencilExecute inverse j .pushMaskBegin).1 = j + 1) ∧
       (stencilRun inverse i l).1 = i ∧
       (∀ c ∈ stencilCounts inverse i l, i ≤ c) ∧
       (∀ e ∈ (stencilRun inverse i l).2, e.clearedStencil = false) ∧
       ((stencilExecute inverse 0 .popMaskBegin).2.clearedStencil = true ∧
        (stencilExecute inverse 0 .popMaskBegin).2.mode = .disabled ∧
        (stencilExecute inverse 0 .popMaskBegin).1 = 0 - 1)) := by
  intro inverse l i hbal hnonneg
  obtain ⟨h1, h2, h3⟩ := stencilRun_balanced inverse l hbal i
  exact ⟨fun j => rfl, h1, h2, h3 hnonneg, rfl, rfl, rfl⟩

/-- C4 witness: the amended theorem applied to the concrete
push-A push-B pop-B pop-A stream from count 0: the final count is 0 and no
intermediate count is negative. -/
theorem C4_stencil_refcount_witness :
    BalancedMask nestedTwoMasks ∧ (0 : ℤ) ≤ 0 ∧
    (stencilRun false 0 nestedTwoMasks).1 = 0 ∧
    (∀ c ∈ stencilCounts false 0 nestedTwoMasks, (0 : ℤ) ≤ c) := by
  have h := C4_stencil_refcount false nestedTwoMasks 0 nestedTwoMasks_balanced le_rfl
  exact ⟨nestedTwoMasks_balanced, le_rfl, h.2.1, h.2.2.1⟩

/-! ### C9 — system registration (`Rt._addSystem`) vs the render path

Systems are identified by `Nat` uids and registered under `String` names;
`hasMethod r u` models whether system `u` defines runner `r`'s hook. -/

structure FacadeState where
  systems : List (String × ℕ)
  runnerItems : String → List ℕ

/-- `Rt._addSystem(t, r)`: `const s = new t(this); if (this[r]) throw new
Error('Whoops! The name "r" is already in use'); this[r] = s;
_systemsHash[r] = s; for (i in runners) runners[i].add(s)`. -/
def addSystem (hasMethod : String → ℕ → Bool) (st : FacadeState) (name : String)
    (sysUid : ℕ) : Except String FacadeState :=
  if (st.systems.lookup name).isSome then
    .error ("Whoops! The name \"" ++ name ++ "\" is already in use")
  else
    .ok { systems := (name, sysUid) :: st.systems,
          runnerItems := fun r =>
            runnerAdd (fun u => hasMethod r u) (st.runnerItems r) sysUid }

/-- `Rt.render(options)`: after option resolution, the per-frame path only
fires the prerender/renderStart/render/renderEnd/postrender runners on a
visible container; it performs no system registration.  Its result type is
`Except String` so that the absence of any raised error is statable. -/
def renderFacade (st : FacadeState) (visible : Bool) :
    Except String (List (String × List ℕ)) :=
  .ok (if visible then
    ["prerender", "renderStart", "render", "renderEnd", "postrender"].map
      (fun r => (r, runnerEmit (st.runnerItems r)))
  else [])

/-- C9: registering a system under a name already in use throws the
duplicate-name `Error` during setup, and the per-frame render path never
produces that (or any) error. -/
theorem C9_duplicate_system_name :
    (∀ (hm : String → ℕ → Bool) (st : FacadeState) (name : String) (u u' : ℕ)
        (st' : FacadeState), addSystem hm st name u = .ok st' →
      addSystem hm st' name u'
        = .error ("Whoops! The name \"" ++ name ++ "\" is already in use")) ∧
    (∀ (st : FacadeState) (visible : Bool) (e : String),
      renderFacade st visible ≠ .error e) := by
  constructor
  · intro hm st name u u' st' hok
    unfold addSystem at hok
    split_ifs at hok with h
    injection hok with hok'
    subst hok'
    unfold addSystem
    rw [if_pos (by simp [List.lookup])]
  · intro st visible e
    simp [renderFacade]

/-- The empty renderer facade (no systems registered, all runners empty). -/
def facadeEmpty : FacadeState := { systems := [], runnerItems := fun _ => [] }

/-- The facade after registering system 1 under the name "view". -/
def facadeAfterView : FacadeState :=
  { systems := [("view", 1)],
    runnerItems := fun r => runnerAdd (fun u => (fun _ _ => true) r u) [] 1 }

/-- C9 witness: registering "view" once succeeds; registering a second
system under "view" yields exactly the duplicate-name error. -/
theorem C9_duplicate_system_name_witness :
    addSystem (fun _ _ => true) facadeEmpty "view" 1 = .ok facadeAfterView ∧
    addSystem (fun _ _ => true) facadeAfterView "view" 2
      = .error "Whoops! The name \"view\" is already in use" :=
  ⟨rfl, C9_duplicate_system_name.1 (fun _ _ => true) facadeEmpty "view" 1 2
    facadeAfterView rfl⟩

/-! ### C1 — full rebuild vs in-place validation
(`$._updateRenderGroups` and `st` in the bundle)

A queued renderable of `childrenRenderablesToUpdate` is represented by what
its pipe's `validateRenderable` would report and by its `didViewUpdate`
flag; the work list is a JS array (entries nullable) with live prefix
length `index`. -/

structure QueuedRenderable where
  validateFails : Bool
  didViewUpdate : Bool
  deriving DecidableEq

/-- The RenderGroup fields `_updateRenderGroups` reads and writes. -/
structure RG where
  structureDidChange : Bool
  queueList : List (Option QueuedRenderable)
  queueIndex : ℕ
  deriving DecidableEq

/-- The scan of `q(n, e)` once at position `e`: entries are nulled until
the first already-null entry, which stops the walk. -/
def clearFrom {α : Type} : List (Option α) → List (Option α)
  | [] => []
  | none :: rest => none :: rest
  | some _ :: rest => none :: clearFrom rest

/-- `q(n, e)`: `e || (e = 0); for (let t = e; t < n.length && n[t]; t++)
n[t] = null`. -/
def q {α : Type} (l : List (Option α)) (e : ℕ) : List (Option α) :=
  l.take e ++ clearFrom (l.drop e)

/-- The loop of `st(n, e)`: `s = pipes[a.renderPipeId].validateRenderable(a);
if (s) break` — plain assignment with early exit, so the loop yields whether
any scanned entry fails validation.  (A null entry below the live index
never occurs in reachable states.) -/
def stLoop : List (Option QueuedRenderable) → Bool
  | [] => false
  | none :: rest => stLoop rest
  | some a :: rest => if a.validateFails then true else stLoop rest

/-- `st(n, e)`: scans `childrenRenderablesToUpdate.list[0 .. index)` and
stores the verdict in `n.structureDidChange`. -/
def st (g : RG) : RG × Bool :=
  let s := stLoop (g.queueList.take g.queueIndex)
  ({ g with structureDidChange := s }, s)

/-- `$._updateRenderables(e)`: refresh each live queued entry whose
`didViewUpdate` is set (via the group's `updateRenderable`), then
`q(t, r)` nulls the stale tail.  The refreshed entries are returned in
order. -/
def updateRenderables (g : RG) : RG × List QueuedRenderable :=
  (({ g with queueList := q g.queueList g.queueIndex }),
   ((g.queueList.take g.queueIndex).filterMap id).filter (fun a => a.didViewUpdate))

inductive BuildAction
  | rebuilt
  | updatedInPlace
  deriving DecidableEq

/-- The instruction-maintenance part of `$._updateRenderGroups(e)`:
`e.structureDidChange ? q(e.childrenRenderablesToUpdate.list, 0) : st(e, r)`;
then (after `Be(e)`, which touches neither `structureDidChange` nor the
renderable queue) `e.structureDidChange ? (e.structureDidChange = false,
this._buildInstructions(e, t)) : this._updateRenderables(e)`; finally
`e.childrenRenderablesToUpdate.index = 0`.  Returns whether the
InstructionSet was rebuilt in full, the per-renderable refreshes performed
on the non-rebuild path, and the resulting group state. -/
def updateRenderGroupsStep (g : RG) : BuildAction × List QueuedRenderable × RG :=
  let g1 := if g.structureDidChange then { g with queueList := q g.queueList 0 } else (st g).1
  if g1.structureDidChange then
    (.rebuilt, [], { g1 with structureDidChange := false, queueIndex := 0 })
  else
    let u := updateRenderables g1
    (.updatedInPlace, u.2, { u.1 with queueIndex := 0 })

/-- Whether some live queued entry's pipe reports a failed in-place
validation. -/
def anyValidationFailure (g : RG) : Bool :=
  (g.queueList.take g.queueIndex).any
    (fun o => match o with | some a => a.validateFails | none => false)

theorem stLoop_eq_any (l : List (Option QueuedRenderable)) :
    stLoop l = l.any (fun o => match o with | some a => a.validateFails | none => false) := by
  induction l with
  | nil => rfl
  | cons o rest ih =>
    cases o with
    | none => simpa [stLoop] using ih
    | some a =>
      cases hv : a.validateFails <;> simp [stLoop, hv, ih]

/-- C1: a full InstructionSet rebuild happens exactly when
`structureDidChange` was set — either directly or because the in-place
validation of a previously queued renderable failed; the flag is cleared by
the build either way; and a renderable whose texture changed without
reparenting (queued with `didViewUpdate`, validation succeeding) takes the
in-place path: no rebuild, one per-instance refresh. -/
theorem C1_rebuild_iff_structure_change :
    (∀ g : RG, (updateRenderGroupsStep g).1 = .rebuilt
        ↔ (g.structureDidChange = true ∨ anyValidationFailure g = true)) ∧
    (∀ g : RG, (updateRenderGroupsStep g).2.2.structureDidChange = false) ∧
    updateRenderGroupsStep
        { structureDidChange := false,
          queueList := [some { validateFails := false, didViewUpdate := true }],
          queueIndex := 1 }
      = (.updatedInPlace, [{ validateFails := false, didViewUpdate := true }],
         { structureDidChange := false,
           queueList := [some { validateFails := false, didViewUpdate := true }],
           queueIndex := 0 }) := by
  refine ⟨?_, ?_, by decide⟩
  · intro g
    by_cases hs : g.structureDidChange
    · simp [updateRenderGroupsStep, hs]
    · simp only [updateRenderGroupsStep, if_neg hs, st]
      cases hv : stLoop (g.queueList.take g.queueIndex) <;>
        simp_all [anyValidationFailure, ← stLoop_eq_any]
  · intro g
    by_cases hs : g.structureDidChange
    · simp [updateRenderGroupsStep, hs]
    · simp only [updateRenderGroupsStep, if_neg hs, st]
      cases hv : stLoop (g.queueList.take g.queueIndex) <;>
        simp [hv, updateRenderables]

/-! ### C7 — the renderable GC (`He` in the bundle)

`He.run` walks `_managedRenderables` (entries nulled by the `destroyed`
handler are skipped and compacted away), refreshes the `_lastUsed`
timestamp of every renderable whose owning group was rendered this tick,
destroys stale entries through their pipe, and compacts survivors in
place.  Timestamps are `ℚ` milliseconds.  The destroy path's
`l.structureDidChange = true` write concerns the instruction builder, not
this claim, and is not tracked here. -/

/-- The per-group fields `He.run` reads: `gcTick` and the group's
InstructionSet `gcTick` (absent when the group has no instruction set). -/
structure GCGroup where
  gcTick : ℤ
  instructionSetGcTick : Option ℤ
  deriving DecidableEq

/-- One tracked renderable: `_lastUsed`, the `destroyed` flag, and the
`renderGroup` / `parentRenderGroup` references. -/
structure GCRenderable where
  uid : ℕ
  lastUsed : ℚ
  destroyed : Bool
  renderGroup : Option GCGroup
  parentRenderGroup : Option GCGroup
  deriving DecidableEq

/-- `let l = a.renderGroup ?? a.parentRenderGroup`. -/
def owningGroup (a : GCRenderable) : Option GCGroup :=
  a.renderGroup.orElse (fun _ => a.parentRenderGroup)

/-- The refresh condition of `He.run`:
`(l?.gcTick ?? 0) === (l?.instructionSet?.gcTick ?? -1)`. -/
def gcTickMatches (l : Option GCGroup) : Bool :=
  decide ((l.elim 0 (fun g => g.gcTick))
    = (l.elim (-1) (fun g => g.instructionSetGcTick.getD (-1))))

/-- The `a._lastUsed = e` refresh applied when the tick condition holds. -/
def gcRefresh (now : ℚ) (a : GCRenderable) : GCRenderable :=
  if gcTickMatches (owningGroup a) then { a with lastUsed := now } else a

/-- The outcome of one `He.run` sweep: the compacted tracking list, the
uids destroyed through their pipe's `destroyRenderable` (skipping entries
already destroyed), and the uids whose `destroyed` handler was
unsubscribed (`a.off("destroyed", ...)`). -/
structure GCSweepResult where
  kept : List GCRenderable
  destroyedCalls : List ℕ
  unsubscribed : List ℕ
  deriving DecidableEq

/-- `He.run()`: for each entry — null entries are dropped (`s++; continue`);
otherwise the timestamp is refreshed when the owning group's `gcTick`
matches its instruction set's, and the entry is destroyed
(`d[a.renderPipeId].destroyRenderable(a)` unless already destroyed),
unsubscribed and dropped when `e - a._lastUsed > maxUnusedTime`, else kept
(shifted down past dropped slots, `t[i - s] = a`). -/
def gcRun (now maxUnusedTime : ℚ) : List (Option GCRenderable) → GCSweepResult
  | [] => { kept := [], destroyedCalls := [], unsubscribed := [] }
  | none :: rest => gcRun now maxUnusedTime rest
  | some a :: rest =>
    let a1 := gcRefresh now a
    let r := gcRun now maxUnusedTime rest
    if now - a1.lastUsed > maxUnusedTime then
      { kept := r.kept,
        destroyedCalls := (if a1.destroyed then [] else [a1.uid]) ++ r.destroyedCalls,
        unsubscribed := a1.uid :: r.unsubscribed }
    else
      { kept := a1 :: r.kept, destroyedCalls := r.destroyedCalls,
        unsubscribed := r.unsubscribed }

/-- `He.defaultOptions`. -/
structure RenderableGCOptions where
  renderableGCActive : Bool
  renderableGCMaxUnusedTime : ℚ
  renderableGCFrequency : ℚ
  deriving DecidableEq

/-- `He.defaultOptions = { renderableGCActive: true,
renderableGCMaxUnusedTime: 6e4, renderableGCFrequency: 3e4 }`. -/
def renderableGCDefaultOptions : RenderableGCOptions :=
  { renderableGCActive := true, renderableGCMaxUnusedTime := 60000,
    renderableGCFrequency := 30000 }

/-- A sequence of sweeps at the given times: after each sweep the tracking
list is the compacted survivor list. -/
def gcSweeps (maxUnusedTime : ℚ) (times : List ℚ)
    (l : List (Option GCRenderable)) : List (Option GCRenderable) :=
  times.foldl (fun l now => ((gcRun now maxUnusedTime l).kept).map some) l

theorem gcRun_cons_some (now maxUnusedTime : ℚ) (a : GCRenderable)
    (rest : List (Option GCRenderable)) :
    gcRun now maxUnusedTime (some a :: rest)
      = if now - (gcRefresh now a).lastUsed > maxUnusedTime then
          { kept := (gcRun now maxUnusedTime rest).kept,
            destroyedCalls :=
              (if (gcRefresh now a).destroyed then [] else [(gcRefresh now a).uid])
                ++ (gcRun now maxUnusedTime rest).destroyedCalls,
            unsubscribed :=
              (gcRefresh now a).uid :: (gcRun now maxUnusedTime rest).unsubscribed }
        else
          { kept := gcRefresh now a :: (gcRun now maxUnusedTime rest).kept,
            destroyedCalls := (gcRun now maxUnusedTime rest).destroyedCalls,
            unsubscribed := (gcRun now maxUnusedTime rest).unsubscribed } := rfl

theorem filter_cons_true {α : Type} (p : α → Bool) (x : α) (l : List α)
    (h : p x = true) : (x :: l).filter p = x :: l.filter p := by
  simp [List.filter_cons, h]

theorem filter_cons_false {α : Type} (p : α → Bool) (x : α) (l : List α)
    (h : p x = false) : (x :: l).filter p = l.filter p := by
  simp [List.filter_cons, h]

theorem gcRun_characterization (now maxUnusedTime : ℚ) (l : List (Option GCRenderable)) :
    (gcRun now maxUnusedTime l).kept
        = ((l.filterMap id).map (gcRefresh now)).filter
            (fun a => decide (now - a.lastUsed ≤ maxUnusedTime)) ∧
    (gcRun now maxUnusedTime l).unsubscribed
        = ((((l.filterMap id).map (gcRefresh now)).filter
            (fun a => decide (maxUnusedTime < now - a.lastUsed))).map (fun a => a.uid)) ∧
    (gcRun now maxUnusedTime l).destroyedCalls
        = (((((l.filterMap id).map (gcRefresh now)).filter
            (fun a => decide (maxUnusedTime < now - a.lastUsed))).filter
              (fun a => !a.destroyed)).map (fun a => a.uid)) := by
  induction l with
  | nil => exact ⟨rfl, rfl, rfl⟩
  | cons o rest ih =>
    obtain ⟨ih1, ih2, ih3⟩ := ih
    cases o with
    | none => exact ⟨ih1, ih2, ih3⟩
    | some a =>
      rw [gcRun_cons_some]
      have hfm : List.filterMap id (some a :: rest) = a :: List.filterMap id rest := rfl
      by_cases hd : now - (gcRefresh now a).lastUsed > maxUnusedTime
      · rw [if_pos hd]
        refine ⟨?_, ?_, ?_⟩
        · rw [hfm, List.map_cons,
            filter_cons_false (fun (x : GCRenderable) => decide (now - x.lastUsed ≤ maxUnusedTime)) _ _
              (decide_eq_false (not_le.mpr hd))]
          exact ih1
        · rw [hfm, List.map_cons,
            filter_cons_true (fun (x : GCRenderable) => decide (maxUnusedTime < now - x.lastUsed)) _ _
              (decide_eq_true hd), List.map_cons, ih2]
        · rw [hfm, List.map_cons,
            filter_cons_true (fun (x : GCRenderable) => decide (maxUnusedTime < now - x.lastUsed)) _ _
              (decide_eq_true hd)]
          cases hdes : (gcRefresh now a).destroyed
          · rw [filter_cons_true (fun (x : GCRenderable) => !x.destroyed) _ _ (by simp [hdes]),
              List.map_cons, ih3]
            rfl
          · rw [filter_cons_false (fun (x : GCRenderable) => !x.destroyed) _ _ (by simp [hdes]), ih3]
            rfl
      · rw [if_neg hd]
        refine ⟨?_, ?_, ?_⟩
        · rw [hfm, List.map_cons,
            filter_cons_true (fun (x : GCRenderable) => decide (now - x.lastUsed ≤ maxUnusedTime)) _ _
              (decide_eq_true (not_lt.mp hd)), ih1]
        · rw [hfm, List.map_cons,
            filter_cons_false (fun (x : GCRenderable) => decide (maxUnusedTime < now - x.lastUsed)) _ _
              (decide_eq_false hd), ih2]
        · rw [hfm, List.map_cons,
            filter_cons_false (fun (x : GCRenderable) => decide (maxUnusedTime < now - x.lastUsed)) _ _
              (decide_eq_false hd), ih3]

theorem gcRun_matched_single (now maxUnusedTime : ℚ) (a : GCRenderable)
    (hmax : 0 ≤ maxUnusedTime) (hmatch : gcTickMatches (owningGroup a) = true) :
    gcRun now maxUnusedTime [some a]
      = { kept := [{ a with lastUsed := now }], destroyedCalls := [],
          unsubscribed := [] } := by
  have hr : gcRefresh now a = { a with lastUsed := now } := by
    unfold gcRefresh
    rw [if_pos hmatch]
  simp only [gcRun, hr]
  rw [if_neg (by simp; linarith)]

/-- C7: a sweep destroys — pipe call (skipping already-destroyed entries),
list removal by in-place compaction, `destroyed`-handler unsubscription —
exactly the tracked renderables whose (tick-refreshed) last-used timestamp
is older than `maxUnusedTime`; the default threshold is 60000 ms; and a
renderable whose owning group matches the instruction-set gc tick at every
sweep is refreshed each time and survives any number of sweeps. -/
theorem C7_renderable_gc :
    (∀ (now maxUnusedTime : ℚ) (l : List (Option GCRenderable)),
      (gcRun now maxUnusedTime l).kept
          = ((l.filterMap id).map (gcRefresh now)).filter
              (fun a => decide (now - a.lastUsed ≤ maxUnusedTime)) ∧
      (gcRun now maxUnusedTime l).unsubscribed
          = ((((l.filterMap id).map (gcRefresh now)).filter
              (fun a => decide (maxUnusedTime < now - a.lastUsed))).map (fun a => a.uid)) ∧
      (gcRun now maxUnusedTime l).destroyedCalls
          = (((((l.filterMap id).map (gcRefresh now)).filter
              (fun a => decide (maxUnusedTime < now - a.lastUsed))).filter
                (fun a => !a.destroyed)).map (fun a => a.uid))) ∧
    renderableGCDefaultOptions.renderableGCMaxUnusedTime = 60000 ∧
    (∀ (maxUnusedTime : ℚ) (times : List ℚ) (a : GCRenderable),
      0 ≤ maxUnusedTime → gcTickMatches (owningGroup a) = true →
      gcSweeps maxUnusedTime times [some a]
        = [some (times.foldl (fun b now => { b with lastUsed := now }) a)]) := by
  refine ⟨gcRun_characterization, rfl, ?_⟩
  intro maxUnusedTime times
  induction times with
  | nil => intro a _ _; rfl
  | cons t rest ih =>
    intro a hmax hmatch
    show gcSweeps maxUnusedTime rest
        (((gcRun t maxUnusedTime [some a]).kept).map some)
      = [some ((t :: rest).foldl (fun b now => { b with lastUsed := now }) a)]
    rw [gcRun_matched_single t maxUnusedTime a hmax hmatch]
    exact ih { a with lastUsed := t } hmax hmatch

/-- C7 witness: a renderable last used at time 0 and not refreshed is
destroyed by a sweep at time 70000 with the default 60000 ms threshold,
while one refreshed every sweep survives three sweeps. -/
theorem C7_renderable_gc_witness :
    (gcRun 70000 60000
        [some { uid := 7, lastUsed := 0, destroyed := false,
                renderGroup := none,
                parentRenderGroup := some { gcTick := 1, instructionSetGcTick := some 0 } }]).kept
      = [] ∧
    (0 : ℚ) ≤ 60000 ∧
    gcTickMatches (owningGroup
      { uid := 8, lastUsed := 0, destroyed := false,
        renderGroup := some { gcTick := 3, instructionSetGcTick := some 3 },
        parentRenderGroup := none }) = true ∧
    gcSweeps 60000 [10, 20, 30]
        [some { uid := 8, lastUsed := 0, destroyed := false,
                renderGroup := some { gcTick := 3, instructionSetGcTick := some 3 },
                parentRenderGroup := none }]
      = [some { uid := 8, lastUsed := 30, destroyed := false,
                renderGroup := some { gcTick := 3, instructionSetGcTick := some 3 },
                parentRenderGroup := none }] := by
  refine ⟨?_, by norm_num, by decide, ?_⟩
  · rw [(C7_renderable_gc.1 70000 60000 _).1]
    norm_num [gcRefresh, gcTickMatches, owningGroup, List.filter]
  · rw [C7_renderable_gc.2.2 60000 [10, 20, 30] _ (by norm_num) (by decide)]
    rfl

/-! ### C8 — generateTexture (`te.generateTexture`) over the render system
(`$.render`)

The container/render-group fields `$.render` saves and restores are modelled
explicitly; everything else the inner passes may touch is an abstract `σ`,
and the passes themselves (`_updateCachedRenderGroups`,
`_updateRenderGroups`, `globalUniforms.start`, the instruction execution
`N`) are an arbitrary state transformer `body`, so the restoration is
established for every possible behaviour of the render body. -/

/-- An affine 3×3 (2D homogeneous) matrix.  Only identity/translate and
copy semantics matter here. -/
structure Mat where
  a : ℚ
  b : ℚ
  c : ℚ
  d : ℚ
  tx : ℚ
  ty : ℚ
  deriving DecidableEq

/-- The saved/restored fields of `$.render` (`container.parent`,
`container.renderGroup.renderGroupParent`,
`container.renderGroup.localTransform`) plus the rest of the scene and
renderer state. -/
structure RenderState (σ : Type) where
  parent : Option ℕ
  renderGroupParent : Option ℕ
  localTransform : Mat
  rest : σ

/-- `$.render({container, transform})`: `r = e.parent;
s = e.renderGroup.renderGroupParent; e.parent = null;
e.renderGroup.renderGroupParent = null;
t && (It.copyFrom(localTransform), localTransform.copyFrom(t)); …passes…;
t && localTransform.copyFrom(It); e.parent = r;
e.renderGroup.renderGroupParent = s`. -/
def renderSystem {σ : Type} (body : RenderState σ → RenderState σ)
    (transform : Option Mat) (c : RenderState σ) : RenderState σ :=
  let r := c.parent
  let s := c.renderGroupParent
  let saved := c.localTransform
  let c1 : RenderState σ := { c with parent := none, renderGroupParent := none }
  let c2 := match transform with
            | some t => { c1 with localTransform := t }
            | none => c1
  let c3 := body c2
  let c4 := match transform with
            | some _ => { c3 with localTransform := saved }
            | none => c3
  { c4 with parent := r, renderGroupParent := s }

/-- The texture `te.generateTexture` allocates:
`a.width = Math.max(a.width, 1/t) | 0` (likewise height), with the
requested resolution and antialias. -/
structure GeneratedTexture where
  width : ℤ
  height : ℤ
  resolution : ℚ
  antialias : Bool
  deriving DecidableEq

/-- `te.generateTexture(e)`: computes the frame, allocates a fresh texture
`l` of the clamped integral size, builds the translate transform
`u = g.shared.translate(-a.x, -a.y)`, renders the container through the
renderer (reaching `$.render` with `{container, transform: u, target: l}`),
and returns `l`. -/
def generateTexture {σ : Type} (body : RenderState σ → RenderState σ)
    (shared : Mat) (resolution : ℚ) (antialias : Bool)
    (frameX frameY frameW frameH : ℚ) (c : RenderState σ) :
    GeneratedTexture × RenderState σ :=
  let w := jsTrunc (max frameW (1 / resolution))
  let h := jsTrunc (max frameH (1 / resolution))
  let tex : GeneratedTexture :=
    { width := w, height := h, resolution := resolution, antialias := antialias }
  let u : Mat := { shared with tx := shared.tx + -frameX, ty := shared.ty + -frameY }
  (tex, renderSystem body (some u) c)

/-- C8: `$.render` restores `container.parent` and the render group's
`renderGroupParent` for any behaviour of the inner passes, and restores the
render group's `localTransform` whenever an explicit transform was
supplied; `generateTexture` always supplies one, so on its return all three
fields equal their pre-call values, and the returned texture is the freshly
allocated one of the computed clamped size. -/
theorem C8_generate_texture_undisturbed :
    (∀ (σ : Type) (body : RenderState σ → RenderState σ) (t : Option Mat)
        (c : RenderState σ),
      (renderSystem body t c).parent = c.parent ∧
      (renderSystem body t c).renderGroupParent = c.renderGroupParent) ∧
    (∀ (σ : Type) (body : RenderState σ → RenderState σ) (m : Mat)
        (c : RenderState σ),
      (renderSystem body (some m) c).localTransform = c.localTransform) ∧
    (∀ (σ : Type) (body : RenderState σ → RenderState σ) (shared : Mat)
        (resolution : ℚ) (antialias : Bool) (fx fy fw fh : ℚ) (c : RenderState σ),
      (generateTexture body shared resolution antialias fx fy fw fh c).2.parent
          = c.parent ∧
      (generateTexture body shared resolution antialias fx fy fw fh c).2.renderGroupParent
          = c.renderGroupParent ∧
      (generateTexture body shared resolution antialias fx fy fw fh c).2.localTransform
          = c.localTransform ∧
      (generateTexture body shared resolution antialias fx fy fw fh c).1
          = { width := jsTrunc (max fw (1 / resolution)),
              height := jsTrunc (max fh (1 / resolution)),
              resolution := resolution, antialias := antialias }) := by
  refine ⟨?_, ?_, ?_⟩
  · intro σ body t c
    cases t <;> exact ⟨rfl, rfl⟩
  · intro σ body m c
    rfl
  · intro σ body shared resolution antialias fx fy fw fh c
    exact ⟨rfl, rfl, rfl, rfl⟩

/-! ### C6 — transform-propagation idempotence (`Be`, `rt` and `q` in the
bundle)

Nodes are identified by `ℕ` uids in a store `ℕ → NodeRec`.  `rt`
(`updateTransformAndChildren`) is embedded with an explicit fuel bounding
the recursion depth (the JS call stack); every theorem below holds for all
fuels.  The transform/color arithmetic `rt` performs on each visited node
(`updateLocalTransform`, the `relativeGroupTransform` appends, the calls
into `tt`) touches none of the fields modelled here and is embedded
separately in the C2 section; a visit is observed through the returned
visit list. -/

/-- The per-node fields of `rt`'s visit/skip discipline: `updateTick`,
`didChange`, the `parentRenderGroup` reference and relative depth checked
by `Be`'s bucket loop, whether the node is itself a render-group boundary
(`n.renderGroup`, which stops recursion), and its children. -/
structure NodeRec where
  updateTick : ℕ
  didChange : Bool
  parentRenderGroup : Option ℕ
  relativeRenderGroupDepth : ℕ
  isRenderGroupBoundary : Bool
  children : List ℕ

/-- Pointwise store update (`n.updateTick = e, n.didChange = !1` etc.). -/
def setNode (s : ℕ → NodeRec) (id : ℕ) (n : NodeRec) : ℕ → NodeRec :=
  fun j => if j = id then n else s j

mutual

/-- `rt(n, e, t)`: `if (e === n.updateTick) return; n.updateTick = e;
n.didChange = !1; …transform work…; if (!n.renderGroup) { for each child
rt(child, e, t); … }`.  Returns the updated store and the visited node ids
in visit order. -/
def rt (fuel : ℕ) (s : ℕ → NodeRec) (id : ℕ) (tick : ℕ) :
    (ℕ → NodeRec) × List ℕ :=
  match fuel with
  | 0 => (s, [])
  | fuel + 1 =>
    if tick = (s id).updateTick then (s, [])
    else
      let s1 := setNode s id { s id with updateTick := tick, didChange := false }
      if (s id).isRenderGroupBoundary then (s1, [id])
      else
        let r := rtList fuel s1 (s id).children tick
        (r.1, id :: r.2)
termination_by (fuel, 0)

/-- The child loop of `rt`. -/
def rtList (fuel : ℕ) (s : ℕ → NodeRec) (ids : List ℕ) (tick : ℕ) :
    (ℕ → NodeRec) × List ℕ :=
  match ids with
  | [] => (s, [])
  | c :: cs =>
    let r1 := rt fuel s c tick
    let r2 := rtList fuel r1.1 cs tick
    (r2.1, r1.2 ++ r2.2)
termination_by (fuel, ids.length + 1)

end

/-- One per-depth bucket of `childrenToUpdate`: the JS array `list` with
live prefix length `index`. -/
structure UpdateBucket where
  list : List (Option ℕ)
  index : ℕ
  deriving DecidableEq

/-- The RenderGroup fields `Be` uses: its uid (for the
`h.parentRenderGroup === n` identity check), its `updateTick`, and the
per-depth buckets (a JS object keyed by relative depth, iterated in
ascending numeric key order). -/
structure PropGroup where
  uid : ℕ
  updateTick : ℕ
  childrenToUpdate : List (ℕ × UpdateBucket)
  deriving DecidableEq

/-- The entry loop of one bucket in `Be`: `for (d = 0; d < u; d++) { h =
l[d]; h.parentRenderGroup === n && h.relativeRenderGroupDepth === i &&
rt(h, r, 0) }`, over the live prefix.  (A null entry below the live index
never occurs in reachable states.) -/
def processEntries (fuel guid depth tick : ℕ) :
    (ℕ → NodeRec) → List (Option ℕ) → (ℕ → NodeRec) × List ℕ
  | s, [] => (s, [])
  | s, none :: rest => processEntries fuel guid depth tick s rest
  | s, some h :: rest =>
    let r1 := if (s h).parentRenderGroup = some guid
        ∧ (s h).relativeRenderGroupDepth = depth
      then rt fuel s h tick else (s, [])
    let r2 := processEntries fuel guid depth tick r1.1 rest
    (r2.1, r1.2 ++ r2.2)

/-- One bucket of `Be`: process the live prefix, then `q(l, u)` and
`a.index = 0`. -/
def processBucket (fuel guid tick : ℕ) (s : ℕ → NodeRec) (depth : ℕ)
    (b : UpdateBucket) : (ℕ → NodeRec) × UpdateBucket × List ℕ :=
  let r := processEntries fuel guid depth tick s (b.list.take b.index)
  (r.1, { list := q b.list b.index, index := 0 }, r.2)

/-- The bucket loop of `Be` (`for (let s in t)`). -/
def processBuckets (fuel guid tick : ℕ) (s : ℕ → NodeRec) :
    List (ℕ × UpdateBucket) → (ℕ → NodeRec) × List (ℕ × UpdateBucket) × List ℕ
  | [] => (s, [], [])
  | (depth, b) :: rest =>
    let p := processBucket fuel guid tick s depth b
    let r := processBuckets fuel guid tick p.1 rest
    (r.1, (depth, p.2.1) :: r.2.1, p.2.2 ++ r.2.2)

/-- `Be(n)` in its single-group form (`e = !1`, as `_updateRenderGroups`
calls it): `Ut(n)` (the group-level world update, embedded in section C2 —
it touches neither the node store nor the buckets), then
`r = n.updateTick++`, then every bucket is processed and reset.  Returns
the node store, the updated group, and all visited node ids. -/
def Be (fuel : ℕ) (s : ℕ → NodeRec) (g : PropGroup) :
    (ℕ → NodeRec) × PropGroup × List ℕ :=
  let r := processBuckets fuel g.uid g.updateTick s g.childrenToUpdate
  (r.1, { uid := g.uid, updateTick := g.updateTick + 1, childrenToUpdate := r.2.1 },
   r.2.2)

/-- The visit discipline relating a store before and after one propagation
step at `tick`: the visit list is duplicate-free, every visited node ends
marked with `tick`, every node already marked with `tick` is skipped, and
unvisited nodes are untouched. -/
def RtInv (s s' : ℕ → NodeRec) (tick : ℕ) (vs : List ℕ) : Prop :=
  vs.Nodup ∧
  (∀ x ∈ vs, (s' x).updateTick = tick) ∧
  (∀ x, (s x).updateTick = tick → x ∉ vs) ∧
  (∀ x, x ∉ vs → s' x = s x)

theorem rtInv_nil (s : ℕ → NodeRec) (tick : ℕ) : RtInv s s tick [] :=
  ⟨List.nodup_nil, by simp, by simp, fun _ _ => rfl⟩

theorem rtInv_comp {s s1 s2 : ℕ → NodeRec} {tick : ℕ} {v1 v2 : List ℕ}
    (h1 : RtInv s s1 tick v1) (h2 : RtInv s1 s2 tick v2) :
    RtInv s s2 tick (v1 ++ v2) := by
  obtain ⟨n1, m1, k1, f1⟩ := h1
  obtain ⟨n2, m2, k2, f2⟩ := h2
  refine ⟨?_, ?_, ?_, ?_⟩
  · rw [List.nodup_append]
    exact ⟨n1, n2, fun x hx1 hx2 => (k2 x (m1 x hx1)) hx2⟩
  · intro x hx
    rcases List.mem_append.mp hx with hx | hx
    · by_cases hx2 : x ∈ v2
      · exact m2 x hx2
      · rw [f2 x hx2]
        exact m1 x hx
    · exact m2 x hx
  · intro x hx hmem
    rcases List.mem_append.mp hmem with hm | hm
    · exact k1 x hx hm
    · exact k2 x (by rw [f1 x (k1 x hx)]; exact hx) hm
  · intro x hx
    have hx1 : x ∉ v1 := fun h => hx (List.mem_append.mpr (Or.inl h))
    have hx2 : x ∉ v2 := fun h => hx (List.mem_append.mpr (Or.inr h))
    rw [f2 x hx2, f1 x hx1]

theorem rtInv_single (s : ℕ → NodeRec) (id tick : ℕ) (n' : NodeRec)
    (hmark : n'.updateTick = tick) (hskip : ¬tick = (s id).updateTick) :
    RtInv s (setNode s id n') tick [id] := by
  refine ⟨List.nodup_singleton id, ?_, ?_, ?_⟩
  · intro x hx
    rw [List.mem_singleton] at hx
    subst hx
    simp [setNode, hmark]
  · intro x hx hmem
    rw [List.mem_singleton] at hmem
    subst hmem
    exact hskip hx.symm
  · intro x hx
    rw [List.mem_singleton] at hx
    simp [setNode, hx]

theorem rt_skip (fuel : ℕ) (s : ℕ → NodeRec) (id tick : ℕ)
    (h : tick = (s id).updateTick) : rt fuel s id tick = (s, []) := by
  cases fuel with
  | zero => simp [rt]
  | succ fuel => simp [rt, h]

theorem rtList_inv_of_rt (fuel : ℕ)
    (hrt : ∀ s id tick, RtInv s (rt fuel s id tick).1 tick (rt fuel s id tick).2) :
    ∀ (ids : List ℕ) (s : ℕ → NodeRec) (tick : ℕ),
      RtInv s (rtList fuel s ids tick).1 tick (rtList fuel s ids tick).2 := by
  intro ids
  induction ids with
  | nil =>
    intro s tick
    have h : rtList fuel s [] tick = (s, []) := by simp [rtList]
    rw [h]
    exact rtInv_nil s tick
  | cons c cs ih =>
    intro s tick
    have h : rtList fuel s (c :: cs) tick
        = ((rtList fuel (rt fuel s c tick).1 cs tick).1,
           (rt fuel s c tick).2 ++ (rtList fuel (rt fuel s c tick).1 cs tick).2) := by
      simp [rtList]
    rw [h]
    exact rtInv_comp (hrt s c tick) (ih (rt fuel s c tick).1 tick)

theorem rt_inv : ∀ (fuel : ℕ) (s : ℕ → NodeRec) (id tick : ℕ),
    RtInv s (rt fuel s id tick).1 tick (rt fuel s id tick).2 := by
  intro fuel
  induction fuel with
  | zero =>
    intro s id tick
    have h : rt 0 s id tick = (s, []) := by simp [rt]
    rw [h]
    exact rtInv_nil s tick
  | succ fuel ih =>
    intro s id tick
    by_cases hskip : tick = (s id).updateTick
    · rw [rt_skip (fuel + 1) s id tick hskip]
      exact rtInv_nil s tick
    · by_cases hb : (s id).isRenderGroupBoundary
      · have h : rt (fuel + 1) s id tick
            = (setNode s id { s id with updateTick := tick, didChange := false },
               [id]) := by
          simp [rt, hskip, hb]
        rw [h]
        exact rtInv_single s id tick _ rfl hskip
      · have h : rt (fuel + 1) s id tick
            = ((rtList fuel
                  (setNode s id { s id with updateTick := tick, didChange := false })
                  (s id).children tick).1,
               id :: (rtList fuel
                  (setNode s id { s id with updateTick := tick, didChange := false })
                  (s id).children tick).2) := by
          simp [rt, hskip, hb]
        rw [h]
        exact rtInv_comp (rtInv_single s id tick _ rfl hskip)
          (rtList_inv_of_rt fuel ih (s id).children _ tick)

theorem processEntries_inv (fuel guid depth tick : ℕ) :
    ∀ (entries : List (Option ℕ)) (s : ℕ → NodeRec),
      RtInv s (processEntries fuel guid depth tick s entries).1 tick
        (processEntries fuel guid depth tick s entries).2 := by
  intro entries
  induction entries with
  | nil => intro s; exact rtInv_nil s tick
  | cons o rest ih =>
    intro s
    cases o with
    | none => exact ih s
    | some h =>
      by_cases hc : (s h).parentRenderGroup = some guid
          ∧ (s h).relativeRenderGroupDepth = depth
      · have he : processEntries fuel guid depth tick s (some h :: rest)
            = ((processEntries fuel guid depth tick (rt fuel s h tick).1 rest).1,
               (rt fuel s h tick).2
                 ++ (processEntries fuel guid depth tick (rt fuel s h tick).1 rest).2) := by
          simp [processEntries, hc]
        rw [he]
        exact rtInv_comp (rt_inv fuel s h tick) (ih (rt fuel s h tick).1)
      · have he : processEntries fuel guid depth tick s (some h :: rest)
            = ((processEntries fuel guid depth tick s rest).1,
               (processEntries fuel guid depth tick s rest).2) := by
          simp [processEntries, hc]
        rw [he]
        exact ih s

theorem processBuckets_inv (fuel guid tick : ℕ) :
    ∀ (bs : List (ℕ × UpdateBucket)) (s : ℕ → NodeRec),
      RtInv s (processBuckets fuel guid tick s bs).1 tick
        (processBuckets fuel guid tick s bs).2.2 := by
  intro bs
  induction bs with
  | nil => intro s; exact rtInv_nil s tick
  | cons eb rest ih =>
    intro s
    obtain ⟨depth, b⟩ := eb
    exact rtInv_comp
      (processEntries_inv fuel guid depth tick (b.list.take b.index) s)
      (ih (processEntries fuel guid depth tick s (b.list.take b.index)).1)

theorem processBuckets_reset (fuel guid tick : ℕ) :
    ∀ (bs : List (ℕ × UpdateBucket)) (s : ℕ → NodeRec),
      ∀ e ∈ (processBuckets fuel guid tick s bs).2.1, e.2.index = 0 := by
  intro bs
  induction bs with
  | nil =>
    intro s e he
    simp [processBuckets] at he
  | cons eb rest ih =>
    intro s e he
    obtain ⟨depth, b⟩ := eb
    have he' : e ∈ (depth, { list := q b.list b.index, index := 0 })
        :: (processBuckets fuel guid tick
            (processEntries fuel guid depth tick s (b.list.take b.index)).1
            rest).2.1 := he
    rcases List.mem_cons.mp he' with rfl | hm
    · rfl
    · exact ih _ e hm

theorem processBuckets_noop (fuel guid tick : ℕ) :
    ∀ (bs : List (ℕ × UpdateBucket)) (s : ℕ → NodeRec),
      (∀ e ∈ bs, e.2.index = 0) →
      (processBuckets fuel guid tick s bs).1 = s ∧
      (processBuckets fuel guid tick s bs).2.2 = [] := by
  intro bs
  induction bs with
  | nil => intro s _; exact ⟨rfl, rfl⟩
  | cons eb rest ih =>
    intro s hz
    obtain ⟨depth, b⟩ := eb
    have hb0 : b.index = 0 := hz (depth, b) (List.mem_cons_self _ _)
    have hrest := ih s (fun e he => hz e (List.mem_cons_of_mem _ he))
    constructor
    · show (processBuckets fuel guid tick
        (processEntries fuel guid depth tick s (b.list.take b.index)).1 rest).1 = s
      rw [hb0]
      exact hrest.1
    · show (processEntries fuel guid depth tick s (b.list.take b.index)).2
        ++ (processBuckets fuel guid tick
            (processEntries fuel guid depth tick s (b.list.take b.index)).1 rest).2.2
        = []
      rw [hb0]
      exact hrest.2

theorem Be_buckets_reset (fuel : ℕ) (s : ℕ → NodeRec) (g : PropGroup) :
    ∀ e ∈ (Be fuel s g).2.1.childrenToUpdate, e.2.index = 0 :=
  processBuckets_reset fuel g.uid g.updateTick g.childrenToUpdate s

theorem q_cons_succ {α : Type} (a : Option α) (rest : List (Option α)) (u : ℕ) :
    q (a :: rest) (u + 1) = a :: q rest u := rfl

theorem q_zero {α : Type} (l : List (Option α)) : q l 0 = clearFrom l := rfl

theorem q_prefix_preserved {α : Type} :
    ∀ (l : List (Option α)) (u j : ℕ), j < u → (q l u).get? j = l.get? j := by
  intro l
  induction l with
  | nil =>
    intro u j _
    simp [q, clearFrom]
  | cons a rest ih =>
    intro u j hj
    cases u with
    | zero => omega
    | succ u =>
      rw [q_cons_succ]
      cases j with
      | zero => rfl
      | succ j =>
        show (q rest u).get? j = rest.get? j
        exact ih u j (by omega)

theorem q_stale_nulled {α : Type} :
    ∀ (l : List (Option α)) (u : ℕ) (x : α), l.get? u = some (some x) →
      (q l u).get? u = some none := by
  intro l
  induction l with
  | nil =>
    intro u x hx
    simp at hx
  | cons a rest ih =>
    intro u x hx
    cases u with
    | zero =>
      rw [q_zero]
      have ha : a = some x := Option.some.inj hx
      subst ha
      rfl
    | succ u =>
      rw [q_cons_succ]
      exact ih u x hx

/-- A store with one dirty node (uid 0): registered in its group's depth-0
bucket, not yet visited at tick 5. -/
def c6Node : NodeRec :=
  { updateTick := 0, didChange := true, parentRenderGroup := some 7,
    relativeRenderGroupDepth := 0, isRenderGroupBoundary := false, children := [] }

def c6Store : ℕ → NodeRec := fun _ => c6Node

def c6Group : PropGroup :=
  { uid := 7, updateTick := 5,
    childrenToUpdate := [(0, { list := [some 0], index := 1 })] }

/-- C6 counterexample: after the propagation pass, the processed depth-0
bucket has its index reset, but the processed entry is NOT nulled —
position 0 of the bucket list still holds node 0, where the claim's
"entries nulled" would require `none`. -/
theorem C6_processed_entry_kept :
    (Be 9 c6Store c6Group).2.1.childrenToUpdate
        = [(0, { list := [some 0], index := 0 })] ∧
    (some 0 : Option ℕ) ≠ none := by
  constructor
  · simp [Be, processBuckets, processBucket, processEntries, rt, rtList, q, clearFrom,
      c6Store, c6Group, c6Node, setNode]
  · simp

/-- C6 as amended: running the propagator a second time on the group state
a first run produced updates no nodes (the store is unchanged and no node
is visited); after a run every bucket has its index reset to 0, with
processed entries before the index left in place and stale entries from
the index onward nulled; a node whose `updateTick` already equals the
current tick is skipped on entry; and no node is visited twice in one
pass, even when it is reachable through two update-list buckets. -/
theorem C6_propagator_idempotent :
    (∀ (fuel fuel2 : ℕ) (s : ℕ → NodeRec) (g : PropGroup),
      (Be fuel2 (Be fuel s g).1 (Be fuel s g).2.1).1 = (Be fuel s g).1 ∧
      (Be fuel2 (Be fuel s g).1 (Be fuel s g).2.1).2.2 = []) ∧
    (∀ (fuel : ℕ) (s : ℕ → NodeRec) (g : PropGroup), (Be fuel s g).2.2.Nodup) ∧
    (∀ (fuel : ℕ) (s : ℕ → NodeRec) (g : PropGroup),
      ∀ e ∈ (Be fuel s g).2.1.childrenToUpdate, e.2.index = 0) ∧
    (∀ (fuel : ℕ) (s : ℕ → NodeRec) (id tick : ℕ),
      tick = (s id).updateTick → rt fuel s id tick = (s, [])) ∧
    (∀ (α : Type) (l : List (Option α)) (u j : ℕ),
      j < u → (q l u).get? j = l.get? j) ∧
    (∀ (α : Type) (l : List (Option α)) (u : ℕ) (x : α),
      l.get? u = some (some x) → (q l u).get? u = some none) := by
  refine ⟨?_, ?_, Be_buckets_reset, rt_skip, fun α => q_prefix_preserved, fun α => q_stale_nulled⟩
  · intro fuel fuel2 s g
    exact processBuckets_noop fuel2 (Be fuel s g).2.1.uid (Be fuel s g).2.1.updateTick
      (Be fuel s g).2.1.childrenToUpdate (Be fuel s g).1 (Be_buckets_reset fuel s g)
  · intro fuel s g
    exact (processBuckets_inv fuel g.uid g.updateTick g.childrenToUpdate s).1

/-- C6 witness: on the concrete one-node scene, the first run visits node 0
once, after which the bucket index is 0; the second run leaves the store
untouched and visits nothing; a node already at the current tick is
skipped; and `q` preserves the processed prefix while nulling the stale
tail. -/
theorem C6_propagator_idempotent_witness :
    ((Be 9 (Be 9 c6Store c6Group).1 (Be 9 c6Store c6Group).2.1).1
        = (Be 9 c6Store c6Group).1 ∧
     (Be 9 (Be 9 c6Store c6Group).1 (Be 9 c6Store c6Group).2.1).2.2 = []) ∧
    (Be 9 c6Store c6Group).2.2.Nodup ∧
    ((0, ({ list := [some 0], index := 0 } : UpdateBucket)) : ℕ × UpdateBucket).2.index
        = 0 ∧
    rt 9 c6Store 0 0 = (c6Store, []) ∧
    (q [some (0 : ℕ)] 1).get? 0 = [some (0 : ℕ)].get? 0 ∧
    (q [some (5 : ℕ)] 0).get? 0 = some none := by
  refine ⟨C6_propagator_idempotent.1 9 9 c6Store c6Group,
    C6_propagator_idempotent.2.1 9 c6Store c6Group,
    C6_propagator_idempotent.2.2.1 9 c6Store c6Group _ (by
      simp [Be, processBuckets, processBucket, processEntries, rt, rtList, q, clearFrom,
        c6Store, c6Group, c6Node, setNode]),
    C6_propagator_idempotent.2.2.2.1 9 c6Store 0 0 rfl,
    C6_propagator_idempotent.2.2.2.2.1 ℕ [some 0] 1 0 (by decide),
    C6_propagator_idempotent.2.2.2.2.2 ℕ [some 5] 0 5 (by decide)⟩

end SceneRenderer
